import Mathlib

/-
Shallow embedding of the MPAS-A log-comparison validator
(src/.github/actions/validate-logs/compare_logs.py, together with the earlier
revision src/.github/workflows/validation/compare_logs.py, embedded in the
namespace WF).

Modelling conventions:
* Python floats are modelled as exact rationals; the value float('inf')
  produced by calc_percent_error for a zero reference is the top element of
  WithTop Rat.
* A log file is a list of lines (List String); re.search of the two fixed
  patterns and Python float() are modelled character-exactly on List Char.
* Python exceptions (ValueError raised by float() on an unparseable token)
  are modelled with Except Unit.
* A filesystem directory is modelled by LogDir: its name together with the
  contents of the files matching the log.atmosphere.*.out glob, in glob
  order.  Path sorting and dict iteration follow the source.
-/

/- ## Data model -/

abbrev Chars := List Char

/-- Error values: Python floats that may be infinite. -/
abbrev ErrVal := WithTop ℚ

/-- One timestep's diagnostic record: the dict with keys
w_min, w_max, u_min, u_max appended to `timesteps` by `parse_log_file`. -/
structure LogStep where
  w_min : ℚ
  w_max : ℚ
  u_min : ℚ
  u_max : ℚ
deriving DecidableEq, Inhabited

/-- The fixed field set `['w_min', 'w_max', 'u_min', 'u_max']` iterated by the
comparison loop of `compare_logs`. -/
inductive DiagField where
  | w_min | w_max | u_min | u_max
deriving DecidableEq

/-- Field lookup on a diagnostic record, `test_data[i][key]` in the source. -/
def LogStep.get (s : LogStep) : DiagField → ℚ
  | .w_min => s.w_min
  | .w_max => s.w_max
  | .u_min => s.u_min
  | .u_max => s.u_max

/-- A dict from the four field names to error values, such as `max_errors`
and `avg_errors` in `compare_logs`. -/
structure ErrMap where
  w_min : ErrVal
  w_max : ErrVal
  u_min : ErrVal
  u_max : ErrVal
deriving DecidableEq

/-- Field lookup on an error dict. -/
def ErrMap.get (m : ErrMap) : DiagField → ErrVal
  | .w_min => m.w_min
  | .w_max => m.w_max
  | .u_min => m.u_min
  | .u_max => m.u_max

/-- Build an error dict from a per-field value. -/
def mkErrMap (f : DiagField → ErrVal) : ErrMap :=
  ⟨f .w_min, f .w_max, f .u_min, f .u_max⟩

/-- The six status strings used by the validator. -/
inductive Status where
  | MATCH | CLOSE | DIFFER | NO_LOG | FAILED | ERROR
deriving DecidableEq

/-- A result dict as produced by `compare_logs`, `run_reference_comparison`
and `run_decomposition_test`.  Keys that a given code path does not set are
modelled as `none` (absent from the Python dict). -/
structure ComparisonResult where
  status : Status
  reason : Option String := none
  name : Option String := none
  timesteps_test : Option ℕ := none
  timesteps_ref : Option ℕ := none
  timesteps_compared : Option ℕ := none
  max_errors : Option ErrMap := none
  avg_errors : Option ErrMap := none
deriving DecidableEq

instance exceptDecEq {ε α : Type} [DecidableEq ε] [DecidableEq α] :
    DecidableEq (Except ε α) := fun x y =>
  match x, y with
  | Except.ok a, Except.ok b =>
    if h : a = b then isTrue (by rw [h])
    else isFalse (fun hc => h (by injection hc))
  | Except.error a, Except.error b =>
    if h : a = b then isTrue (by rw [h])
    else isFalse (fun hc => h (by injection hc))
  | Except.ok _, Except.error _ => isFalse (fun hc => Except.noConfusion hc)
  | Except.error _, Except.ok _ => isFalse (fun hc => Except.noConfusion hc)

/- ## calc_percent_error (compare_logs.py lines 49-52) -/

/-- Percent error between a test and a reference value:
`0.0 if test_val == 0 else float('inf')` when the reference is zero,
otherwise `abs((test_val - ref_val) / ref_val) * 100`. -/
def calc_percent_error (test_val ref_val : ℚ) : ErrVal :=
  if ref_val = 0 then (if test_val = 0 then (0 : ErrVal) else ⊤)
  else ((abs ((test_val - ref_val) / ref_val) * 100 : ℚ) : ErrVal)

/- ## compare_logs on parsed series (compare_logs.py lines 55-103)

The source function takes two file paths and parses them first; the parsing
stage is factored out below (`compare_logs_files`), and `compare_logs` here
is the pure comparison of the two parsed series. -/

/-- Per-index, per-field percent error `calc_percent_error(test_data[i][key],
ref_data[i][key])`. -/
def errAt (test_data ref_data : List LogStep) (i : ℕ) (k : DiagField) : ErrVal :=
  calc_percent_error ((test_data.getD i default).get k) ((ref_data.getD i default).get k)

/-- The `max_errors` dict: per field, the running maximum (starting from 0)
of the per-index errors over `i in range(n_compare)`. -/
def maxErrors (test_data ref_data : List LogStep) (n : ℕ) : ErrMap :=
  mkErrMap fun k => ((List.range n).map fun i => errAt test_data ref_data i k).foldl max 0

/-- The `sum_errors` dict: per field, the running sum (starting from 0)
of the per-index errors over `i in range(n_compare)`. -/
def sumErrors (test_data ref_data : List LogStep) (n : ℕ) : ErrMap :=
  mkErrMap fun k => ((List.range n).map fun i => errAt test_data ref_data i k).foldl (· + ·) 0

/-- Division of an error value by the timestep count, `v / n_compare`;
an infinite sum stays infinite. -/
def divErr (x : ErrVal) (n : ℕ) : ErrVal :=
  WithTop.map (fun q => q / (n : ℚ)) x

/-- The `avg_errors` dict comprehension `{k: v / n_compare for k, v in
sum_errors.items()}`. -/
def avgErrors (test_data ref_data : List LogStep) (n : ℕ) : ErrMap :=
  mkErrMap fun k => divErr ((sumErrors test_data ref_data n).get k) n

/-- The generator test `all(v < c for v in m.values())`. -/
def ErrMap.allLt (m : ErrMap) (c : ErrVal) : Prop :=
  m.w_min < c ∧ m.w_max < c ∧ m.u_min < c ∧ m.u_max < c

instance (m : ErrMap) (c : ErrVal) : Decidable (m.allLt c) := by
  unfold ErrMap.allLt
  exact inferInstance

/- ## parse_log_file (compare_logs.py lines 18-46)

The two compiled patterns are
  `global min, max w\s+([-\d.E+]+)\s+([-\d.E+]+)`  and
  `global min, max u\s+([-\d.E+]+)\s+([-\d.E+]+)`.
`re.search` looks for the leftmost position at which the whole pattern
matches.  Because the token class `[-\d.E+]` and `\s` are disjoint, the
greedy quantifiers never need to backtrack, so each run is the maximal run
of its class. -/

/-- Membership in the regex character class `[-\d.E+]`. -/
def tokChar (c : Char) : Bool :=
  c = '-' || c.isDigit || c = '.' || c = 'E' || c = '+'

/-- Membership in the regex class `\s`. -/
def spaceChar (c : Char) : Bool :=
  c.isWhitespace

/-- Match the pattern tail `\s+([-\d.E+]+)\s+([-\d.E+]+)` at the start of
`cs`, returning the two captured groups. -/
def matchAfter (cs : Chars) : Option (Chars × Chars) :=
  if (cs.takeWhile spaceChar).isEmpty then none else
  let r1 := cs.dropWhile spaceChar
  let t1 := r1.takeWhile tokChar
  if t1.isEmpty then none else
  let r2 := r1.dropWhile tokChar
  if (r2.takeWhile spaceChar).isEmpty then none else
  let r3 := r2.dropWhile spaceChar
  let t2 := r3.takeWhile tokChar
  if t2.isEmpty then none else some (t1, t2)

/-- Python `re.search` for `pat` (a literal marker) followed by the token
tail: the leftmost start position at which the whole pattern matches wins. -/
def search (pat : Chars) : Chars → Option (Chars × Chars)
  | [] => none
  | c :: rest =>
    if pat.isPrefixOf (c :: rest) then
      match matchAfter ((c :: rest).drop pat.length) with
      | some g => some g
      | none => search pat rest
    else search pat rest

/-- The literal marker of `pattern_w`. -/
def patW : Chars := "global min, max w".data

/-- The literal marker of `pattern_u`. -/
def patU : Chars := "global min, max u".data

/-- Value of a decimal digit character. -/
def digitVal (c : Char) : ℕ := c.toNat - 48

/-- Decimal value of a digit string (Python `int` semantics on the digits
captured by `\d+`, so leading zeros are allowed). -/
def digitsToNat (ds : Chars) : ℕ :=
  ds.foldl (fun a c => 10 * a + digitVal c) 0

/-- Python `float()` on a token drawn from the class `[-\d.E+]`:
`[sign] (digits [. digits] | . digits) [(E|e) [sign] digits]`, the whole
token consumed; `none` models the `ValueError` raised otherwise.  The
numeric value is exact (real-valued semantics; binary rounding and overflow
to infinity are not modelled). -/
def pyFloat (cs : Chars) : Option ℚ :=
  let (sgn, r1) : ℚ × Chars :=
    match cs with
    | '-' :: t => (-1, t)
    | '+' :: t => (1, t)
    | _ => (1, cs)
  let ip := r1.takeWhile Char.isDigit
  let r2 := r1.dropWhile Char.isDigit
  let (fp, r3) : Chars × Chars :=
    match r2 with
    | '.' :: t => (t.takeWhile Char.isDigit, t.dropWhile Char.isDigit)
    | _ => ([], r2)
  if ip.isEmpty && fp.isEmpty then none else
  let mant : ℚ := (digitsToNat ip : ℚ) + (digitsToNat fp : ℚ) / (10 : ℚ) ^ fp.length
  match r3 with
  | [] => some (sgn * mant)
  | 'E' :: t =>
    let (esgn, t1) : ℤ × Chars :=
      match t with
      | '-' :: u => (-1, u)
      | '+' :: u => (1, u)
      | _ => (1, t)
    let ed := t1.takeWhile Char.isDigit
    let rest := t1.dropWhile Char.isDigit
    if ed.isEmpty || !rest.isEmpty then none
    else some (sgn * mant * (10 : ℚ) ^ (esgn * (digitsToNat ed : ℤ)))
  | 'e' :: t =>
    let (esgn, t1) : ℤ × Chars :=
      match t with
      | '-' :: u => (-1, u)
      | '+' :: u => (1, u)
      | _ => (1, t)
    let ed := t1.takeWhile Char.isDigit
    let rest := t1.dropWhile Char.isDigit
    if ed.isEmpty || !rest.isEmpty then none
    else some (sgn * mant * (10 : ℚ) ^ (esgn * (digitsToNat ed : ℤ)))
  | _ => none

/-- One marker match of the parser loop: a `w` match staging
`w_min, w_max`, or a `u` match staging `u_min, u_max`. -/
inductive Ev where
  | w (vmin vmax : ℚ)
  | u (vmin vmax : ℚ)
deriving DecidableEq

/-- Float conversion of one regex match: `float(match.group(1))`,
`float(match.group(2))`; a token `float()` rejects raises `ValueError`. -/
def evFromMatch (mk : ℚ → ℚ → Ev) : Option (Chars × Chars) → Except Unit (List Ev)
  | none => Except.ok []
  | some (t1, t2) =>
    match pyFloat t1, pyFloat t2 with
    | some a, some b => Except.ok [mk a b]
    | _, _ => Except.error ()

/-- The marker matches of one line, in the order the loop body handles them
(`match_w` before `match_u`). -/
def lineEvents (line : String) : Except Unit (List Ev) :=
  match evFromMatch Ev.w (search patW line.data), evFromMatch Ev.u (search patU line.data) with
  | Except.ok ws, Except.ok us => Except.ok (ws ++ us)
  | Except.error e, _ => Except.error e
  | _, Except.error e => Except.error e

/-- The marker matches of a whole file, in document order. -/
def logEvents : List String → Except Unit (List Ev)
  | [] => Except.ok []
  | l :: ls =>
    match lineEvents l, logEvents ls with
    | Except.ok es, Except.ok rest => Except.ok (es ++ rest)
    | Except.error e, _ => Except.error e
    | _, Except.error e => Except.error e

/-- The staging automaton of the parser loop.  The state is the staged
`w_min, w_max` pair of `current_step` (a `u` value left in `current_step`
by an orphan `u` match is always overwritten before a record is emitted, so
it is not part of the observable state).  A `w` match stages its values; a
`u` match emits a record if `'w_min' in current_step` and resets the
staging, and is dropped otherwise. -/
def stepEvents : Option (ℚ × ℚ) → List Ev → List LogStep
  | _, [] => []
  | _, Ev.w a b :: es => stepEvents (some (a, b)) es
  | some wv, Ev.u c d :: es => ⟨wv.1, wv.2, c, d⟩ :: stepEvents none es
  | none, Ev.u _ _ :: es => stepEvents none es

/-- The number of w-marker-then-u-marker pairs of a match sequence in
document order, as the specification counts them: a `w` match opens (or
re-opens) a pending pair, a `u` match closes and counts a pending pair and
is dropped when none is pending.  The flag records whether a pair is
pending. -/
def countPairs : Bool → List Ev → ℕ
  | _, [] => 0
  | _, Ev.w _ _ :: es => countPairs true es
  | true, Ev.u _ _ :: es => countPairs false es + 1
  | false, Ev.u _ _ :: es => countPairs false es

/-- `parse_log_file`: extract the marker matches line by line (raising on a
token `float()` cannot parse) and run the staging automaton over them. -/
def parse_log_file (lines : List String) : Except Unit (List LogStep) :=
  match logEvents lines with
  | Except.ok es => Except.ok (stepEvents none es)
  | Except.error e => Except.error e

/-- Comparison of two parsed diagnostic series: the body of `compare_logs`
after the two `parse_log_file` calls. -/
def compare_logs (test_data ref_data : List LogStep) : ComparisonResult :=
  if test_data = [] then
    { status := Status.FAILED
      reason := some "No timesteps found in test file"
      timesteps_test := some 0
      timesteps_ref := some ref_data.length }
  else if ref_data = [] then
    { status := Status.ERROR
      reason := some "No timesteps found in reference file"
      timesteps_test := some test_data.length
      timesteps_ref := some 0 }
  else
    let n_compare := min test_data.length ref_data.length
    let max_errors := maxErrors test_data ref_data n_compare
    let avg_errors := avgErrors test_data ref_data n_compare
    let threshold : ErrVal := ((1 : ℚ) : ErrVal)
    { status :=
        if max_errors.allLt threshold then Status.MATCH
        else if max_errors.allLt ((5 : ℚ) : ErrVal) then Status.CLOSE
        else Status.DIFFER
      timesteps_test := some test_data.length
      timesteps_ref := some ref_data.length
      timesteps_compared := some n_compare
      max_errors := some max_errors
      avg_errors := some avg_errors }

/-- The whole of `compare_logs` as the source writes it: parse the test
file, parse the reference file (each may raise `ValueError`), then compare
the two series. -/
def compare_logs_files (test_file ref_file : List String) : Except Unit ComparisonResult :=
  match parse_log_file test_file with
  | Except.error e => Except.error e
  | Except.ok test_data =>
    match parse_log_file ref_file with
    | Except.error e => Except.error e
    | Except.ok ref_data => Except.ok (compare_logs test_data ref_data)

/-- A comparison result that carries both error maps. -/
def hasErrMaps (r : ComparisonResult) : Prop :=
  r.max_errors.isSome = true ∧ r.avg_errors.isSome = true

/-- A comparison result whose status has numeric detail. -/
def numericStatus (r : ComparisonResult) : Prop :=
  r.status = Status.MATCH ∨ r.status = Status.CLOSE ∨ r.status = Status.DIFFER

/- ## summarize_results (compare_logs.py lines 180-201)

The summary string is print-only output; only the exit code is modelled. -/

/-- Exit-code part of `summarize_results`. -/
def summarize_results (results : List ComparisonResult) (allow_missing : Bool) : ℕ :=
  let n_differ := results.countP fun r => decide (r.status = Status.DIFFER)
  let n_no_log := results.countP fun r => decide (r.status = Status.NO_LOG)
  let n_failed := results.countP fun r =>
    decide (r.status = Status.FAILED ∨ r.status = Status.ERROR)
  if allow_missing then
    if 0 < n_failed ∨ 0 < n_differ then 1 else 0
  else
    if 0 < n_failed ∨ 0 < n_differ ∨ 0 < n_no_log then 1 else 0

/- ## Directory scanning (compare_logs.py lines 204-309)

A directory is its name together with the contents of the files the glob
`log.atmosphere.*.out` finds in it, in glob order; `files` being `[]`
models an empty glob result. -/

/-- One artifact subdirectory. -/
structure LogDir where
  name : String
  files : List (List String)
deriving DecidableEq

/-- Ordering used by `sorted(Path(logs_dir).iterdir())` and by
`results.sort(key=lambda r: r['name'])`: lexicographic comparison of
names. -/
def nameLe (a b : LogDir) : Prop := a.name ≤ b.name

instance : DecidableRel nameLe := fun a b =>
  inferInstanceAs (Decidable (a.name ≤ b.name))

instance : IsTotal LogDir nameLe := ⟨fun a b => le_total a.name b.name⟩

instance : IsTrans LogDir nameLe := ⟨fun _ _ _ h h' => le_trans h h'⟩

/-- Python `needle in haystack` on strings. -/
def strContains (s sub : String) : Bool :=
  s.data.tails.any fun t => sub.data.isPrefixOf t

/-- `get_log_dirs`: the subdirectories in sorted order, optionally filtered
to names containing `name_filter` (an empty filter string is falsy in
Python and disables filtering). -/
def get_log_dirs (dirs : List LogDir) (name_filter : Option String) : List LogDir :=
  (dirs.filter fun d =>
    match name_filter with
    | none => true
    | some f => if f = "" then true else strContains d.name f).insertionSort nameLe

/-- Sort a result list by the `name` key (always present when this runs). -/
def sortResults (results : List ComparisonResult) : List ComparisonResult :=
  results.insertionSort fun a b => a.name.getD "" ≤ b.name.getD ""

instance : DecidableRel fun (a b : ComparisonResult) => a.name.getD "" ≤ b.name.getD "" :=
  fun a b => inferInstanceAs (Decidable (_ ≤ _))

/-- A `NO_LOG` result dict. -/
def noLogResult (nm : String) (why : String) : ComparisonResult :=
  { status := Status.NO_LOG, reason := some why, name := some nm }

/-- The back-fill of `expected_configs`: any expected name not among the
found names becomes a `NO_LOG` result with reason "Run failed or skipped".
`if expected_configs:` makes an empty list equivalent to `None`. -/
def expectedExtras (found : List String) (expected_configs : Option (List String)) :
    List ComparisonResult :=
  match expected_configs with
  | none => []
  | some exps =>
    (exps.filter fun e => decide (e ∉ found)).map fun e =>
      noLogResult e "Run failed or skipped"

/-- Per-directory loop of `run_reference_comparison`: an empty glob yields
`NO_LOG`, otherwise the first log file is compared against the reference
path (re-parsed inside `compare_logs`); an exception propagates and
abandons the rest of the loop. -/
def reference_loop (reference : List String) : List LogDir → Except Unit (List ComparisonResult)
  | [] => Except.ok []
  | d :: ds =>
    match
      (match d.files with
       | [] => Except.ok (noLogResult d.name "No log file found")
       | f :: _ =>
         match compare_logs_files f reference with
         | Except.ok c => Except.ok { c with name := some d.name }
         | Except.error e => Except.error e) with
    | Except.error e => Except.error e
    | Except.ok r =>
      match reference_loop reference ds with
      | Except.error e => Except.error e
      | Except.ok rest => Except.ok (r :: rest)

/-- `run_reference_comparison` (lines 215-243): parse the reference once
for the banner print, loop over the scanned directories, back-fill the
expected names, and sort the results by name. -/
def run_reference_comparison (dirs : List LogDir) (reference : List String)
    (name_filter : Option String) (expected_configs : Option (List String)) :
    Except Unit (List ComparisonResult) :=
  match parse_log_file reference with
  | Except.error e => Except.error e
  | Except.ok _ =>
    let scanned := get_log_dirs dirs name_filter
    match reference_loop reference scanned with
    | Except.error e => Except.error e
    | Except.ok results =>
      Except.ok (sortResults (results ++ expectedExtras (scanned.map LogDir.name) expected_configs))

/- ## run_decomposition_test (compare_logs.py lines 246-309) -/

/-- The anchored regex `^logs-(\d+)proc-(.+)$` applied to a directory name:
the greedy digit run is the maximal one (digits and `p` are disjoint), and
`(.+)$` requires a non-empty remainder.  Returns `(int(digits), key)`. -/
def parseRank (name : String) : Option (ℕ × String) :=
  let cs := name.data
  if "logs-".data.isPrefixOf cs then
    let r := cs.drop 5
    let ds := r.takeWhile Char.isDigit
    if ds.isEmpty then none
    else
      let r2 := r.dropWhile Char.isDigit
      if "proc-".data.isPrefixOf r2 then
        let key := r2.drop 5
        if key.isEmpty then none else some (digitsToNat ds, String.mk key)
      else none
  else none

/-- The `single_rank` dict: keyed by config key, built in scan order with
later entries overwriting earlier ones, so a lookup returns the last
matching directory in sorted order. -/
def singleRank (scanned : List LogDir) (key : String) : Option LogDir :=
  (scanned.filter fun d => decide (parseRank d.name = some (1, key))).getLast?

/-- Python tuple comparison on the `(nprocs, config_key, log_dir)` entries
of `multi_rank` (a `Path` compares by its string, here the name). -/
def multiLe (a b : ℕ × String × LogDir) : Prop :=
  a.1 < b.1 ∨ (a.1 = b.1 ∧ (a.2.1 < b.2.1 ∨ (a.2.1 = b.2.1 ∧ a.2.2.name ≤ b.2.2.name)))

instance (a b : ℕ × String × LogDir) : Decidable (multiLe a b) := by
  unfold multiLe
  exact inferInstance

/-- The `multi_rank` list: every scanned directory whose name parses with
`nprocs != 1`, in `sorted(multi_rank)` order. -/
def decompPairs (scanned : List LogDir) : List (ℕ × String × LogDir) :=
  (scanned.filterMap fun d =>
    match parseRank d.name with
    | some (n, k) => if n = 1 then none else some (n, k, d)
    | none => none).insertionSort multiLe

/-- The synthesized result name `"<N>proc vs 1proc: <key>"`. -/
def decompName (n : ℕ) (key : String) : String :=
  toString n ++ "proc vs 1proc: " ++ key

/-- Body of the decomposition loop for one `multi_rank` entry. -/
def decompResult (single : String → Option LogDir) (e : ℕ × String × LogDir) :
    Except Unit ComparisonResult :=
  let nm := decompName e.1 e.2.1
  match single e.2.1 with
  | none => Except.ok (noLogResult nm ("No matching 1proc log for " ++ e.2.1))
  | some refDir =>
    match refDir.files, e.2.2.files with
    | [], _ => Except.ok (noLogResult nm "1proc log file missing")
    | _ :: _, [] => Except.ok (noLogResult nm (toString e.1 ++ "proc log file missing"))
    | rf :: _, tf :: _ =>
      match compare_logs_files tf rf with
      | Except.ok c => Except.ok { c with name := some nm }
      | Except.error err => Except.error err

/-- The decomposition loop over the sorted `multi_rank` entries. -/
def decomp_loop (single : String → Option LogDir) :
    List (ℕ × String × LogDir) → Except Unit (List ComparisonResult)
  | [] => Except.ok []
  | e :: es =>
    match decompResult single e with
    | Except.error err => Except.error err
    | Except.ok r =>
      match decomp_loop single es with
      | Except.error err => Except.error err
      | Except.ok rest => Except.ok (r :: rest)

/-- `run_decomposition_test` (lines 246-309): scan and sort directories,
partition by rank count, pair each multi-rank entry with the single-rank
directory of the same config key, back-fill expected names, sort by
name. -/
def run_decomposition_test (dirs : List LogDir) (expected_configs : Option (List String)) :
    Except Unit (List ComparisonResult) :=
  let scanned := get_log_dirs dirs none
  let pairs := decompPairs scanned
  match decomp_loop (singleRank scanned) pairs with
  | Except.error err => Except.error err
  | Except.ok results =>
    let found := pairs.map fun e => decompName e.1 e.2.1
    Except.ok (sortResults (results ++ expectedExtras found expected_configs))

/- ## The main entry point (compare_logs.py lines 312-386)

Only the slice of `main` that selects a protocol and runs the comparison is
modelled.  The parsed CLI arguments carry `--threshold`, which `main` never
passes to any comparison function. -/

/-- The parsed CLI options of `main` that affect comparison. -/
structure Args where
  threshold : ℚ := 1
  allow_missing : Bool := false
  filter : Option String := none
  decomposition_test : Bool := false
  expected : Option (List String) := none
deriving DecidableEq

/-- The comparison step of `main`: protocol selection and invocation.  As in
the source, `args.threshold` is parsed but consulted nowhere. -/
def main_run (args : Args) (dirs : List LogDir) (reference : List String) :
    Except Unit (List ComparisonResult) :=
  if args.decomposition_test then run_decomposition_test dirs args.expected
  else run_reference_comparison dirs reference args.filter args.expected

/- ## The earlier revision src/.github/workflows/validation/compare_logs.py

Its `parse_log_file`, `calc_percent_error` and `compare_logs` are
transcribed separately below (the loop bodies are line-for-line the same
Python; `calc_percent_error` is written with the nested `if`/`else` of that
file).  The Python builtins `re.search` and `float` are the shared models
`search` and `pyFloat` above. -/

namespace WF

/-- Literal marker of `pattern_w` in the workflows revision. -/
def patW : Chars := "global min, max w".data

/-- Literal marker of `pattern_u` in the workflows revision. -/
def patU : Chars := "global min, max u".data

/-- Marker matches of one line, workflows revision. -/
def lineEvents (line : String) : Except Unit (List Ev) :=
  match evFromMatch Ev.w (search WF.patW line.data), evFromMatch Ev.u (search WF.patU line.data) with
  | Except.ok ws, Except.ok us => Except.ok (ws ++ us)
  | Except.error e, _ => Except.error e
  | _, Except.error e => Except.error e

/-- Marker matches of a file, workflows revision. -/
def logEvents : List String → Except Unit (List Ev)
  | [] => Except.ok []
  | l :: ls =>
    match WF.lineEvents l, WF.logEvents ls with
    | Except.ok es, Except.ok rest => Except.ok (es ++ rest)
    | Except.error e, _ => Except.error e
    | _, Except.error e => Except.error e

/-- Staging automaton of the parser loop, workflows revision. -/
def stepEvents : Option (ℚ × ℚ) → List Ev → List LogStep
  | _, [] => []
  | _, Ev.w a b :: es => WF.stepEvents (some (a, b)) es
  | some wv, Ev.u c d :: es => ⟨wv.1, wv.2, c, d⟩ :: WF.stepEvents none es
  | none, Ev.u _ _ :: es => WF.stepEvents none es

/-- `parse_log_file` of the workflows revision. -/
def parse_log_file (lines : List String) : Except Unit (List LogStep) :=
  match WF.logEvents lines with
  | Except.ok es => Except.ok (WF.stepEvents none es)
  | Except.error e => Except.error e

/-- `calc_percent_error` of the workflows revision (lines 47-54 there). -/
def calc_percent_error (test_val ref_val : ℚ) : ErrVal :=
  if ref_val = 0 then
    if test_val = 0 then (0 : ErrVal)
    else ⊤
  else ((abs ((test_val - ref_val) / ref_val) * 100 : ℚ) : ErrVal)

/-- Per-index field error of the workflows revision. -/
def errAt (test_data ref_data : List LogStep) (i : ℕ) (k : DiagField) : ErrVal :=
  WF.calc_percent_error ((test_data.getD i default).get k) ((ref_data.getD i default).get k)

/-- `max_errors` of the workflows revision. -/
def maxErrors (test_data ref_data : List LogStep) (n : ℕ) : ErrMap :=
  mkErrMap fun k => ((List.range n).map fun i => WF.errAt test_data ref_data i k).foldl max 0

/-- `sum_errors` of the workflows revision. -/
def sumErrors (test_data ref_data : List LogStep) (n : ℕ) : ErrMap :=
  mkErrMap fun k => ((List.range n).map fun i => WF.errAt test_data ref_data i k).foldl (· + ·) 0

/-- `avg_errors` of the workflows revision. -/
def avgErrors (test_data ref_data : List LogStep) (n : ℕ) : ErrMap :=
  mkErrMap fun k => divErr ((WF.sumErrors test_data ref_data n).get k) n

/-- `compare_logs` of the workflows revision (lines 57-113 there), on the
two parsed series. -/
def compare_logs (test_data ref_data : List LogStep) : ComparisonResult :=
  if test_data = [] then
    { status := Status.FAILED
      reason := some "No timesteps found in test file"
      timesteps_test := some 0
      timesteps_ref := some ref_data.length }
  else if ref_data = [] then
    { status := Status.ERROR
      reason := some "No timesteps found in reference file"
      timesteps_test := some test_data.length
      timesteps_ref := some 0 }
  else
    let n_compare := min test_data.length ref_data.length
    let max_errors := WF.maxErrors test_data ref_data n_compare
    let avg_errors := WF.avgErrors test_data ref_data n_compare
    let threshold : ErrVal := ((1 : ℚ) : ErrVal)
    { status :=
        if max_errors.allLt threshold then Status.MATCH
        else if max_errors.allLt ((5 : ℚ) : ErrVal) then Status.CLOSE
        else Status.DIFFER
      timesteps_test := some test_data.length
      timesteps_ref := some ref_data.length
      timesteps_compared := some n_compare
      max_errors := some max_errors
      avg_errors := some avg_errors }

/-- File-level `compare_logs` of the workflows revision. -/
def compare_logs_files (test_file ref_file : List String) : Except Unit ComparisonResult :=
  match WF.parse_log_file test_file with
  | Except.error e => Except.error e
  | Except.ok test_data =>
    match WF.parse_log_file ref_file with
    | Except.error e => Except.error e
    | Except.ok ref_data => Except.ok (WF.compare_logs test_data ref_data)

end WF

/- ## Theorems -/

theorem mkErrMap_get (f : DiagField → ErrVal) (k : DiagField) :
    (mkErrMap f).get k = f k := by
  cases k <;> rfl

theorem le_foldl_max {α : Type} [LinearOrder α] : ∀ (l : List α) (a : α), a ≤ l.foldl max a
  | [], _ => le_refl _
  | x :: t, a => le_trans (le_max_left a x) (le_foldl_max t (max a x))

theorem foldl_max_le_of_mem {α : Type} [LinearOrder α] :
    ∀ (l : List α) (a x : α), x ∈ l → x ≤ l.foldl max a
  | y :: t, a, x, hx => by
    rw [List.foldl_cons]
    rcases List.mem_cons.mp hx with h | h
    · subst h
      exact le_trans (le_max_right a x) (le_foldl_max t (max a x))
    · exact foldl_max_le_of_mem t (max a y) x h

theorem foldl_max_mem {α : Type} [LinearOrder α] :
    ∀ (l : List α) (a : α), l.foldl max a = a ∨ l.foldl max a ∈ l
  | [], _ => Or.inl rfl
  | x :: t, a => by
    rw [List.foldl_cons]
    rcases foldl_max_mem t (max a x) with h | h
    · rcases max_choice a x with h' | h'
      · exact Or.inl (h.trans h')
      · exact Or.inr (by rw [h, h']; exact List.mem_cons_self x t)
    · exact Or.inr (List.mem_cons_of_mem x h)

theorem foldl_add_eq_sum (l : List ErrVal) (a : ErrVal) : l.foldl (· + ·) a = a + l.sum := by
  induction l generalizing a with
  | nil => simp
  | cons x t ih => rw [List.foldl_cons, ih (a + x), List.sum_cons, add_assoc]

theorem calc_percent_error_nonneg (t r : ℚ) : 0 ≤ calc_percent_error t r := by
  unfold calc_percent_error
  split
  · split
    · exact le_refl _
    · exact le_top
  · have h : (0 : ℚ) ≤ abs ((t - r) / r) * 100 := by positivity
    exact_mod_cast h

theorem errAt_nonneg (test_data ref_data : List LogStep) (i : ℕ) (k : DiagField) :
    0 ≤ errAt test_data ref_data i k :=
  calc_percent_error_nonneg _ _

/-- Shared unfolding of `compare_logs` when both series are non-empty. -/
theorem compare_logs_eq_of_ne {test_data ref_data : List LogStep}
    (ht : test_data ≠ []) (hr : ref_data ≠ []) :
    compare_logs test_data ref_data =
      { status :=
          if (maxErrors test_data ref_data (min test_data.length ref_data.length)).allLt
              ((1 : ℚ) : ErrVal) then Status.MATCH
          else if (maxErrors test_data ref_data (min test_data.length ref_data.length)).allLt
              ((5 : ℚ) : ErrVal) then Status.CLOSE
          else Status.DIFFER
        timesteps_test := some test_data.length
        timesteps_ref := some ref_data.length
        timesteps_compared := some (min test_data.length ref_data.length)
        max_errors := some (maxErrors test_data ref_data (min test_data.length ref_data.length))
        avg_errors := some (avgErrors test_data ref_data (min test_data.length ref_data.length)) } := by
  unfold compare_logs
  rw [if_neg ht, if_neg hr]

/-- C2: `calc_percent_error` is 0 on equal finite inputs and on (0, 0), is
+infinity for a nonzero test value against a zero reference, and is
`|test - ref| / |ref| * 100` whenever the reference is nonzero. -/
theorem calc_percent_error_spec :
    (∀ x : ℚ, calc_percent_error x x = 0)
    ∧ calc_percent_error 0 0 = 0
    ∧ (∀ x : ℚ, x ≠ 0 → calc_percent_error x 0 = ⊤)
    ∧ (∀ t r : ℚ, r ≠ 0 → calc_percent_error t r = ((abs (t - r) / abs r * 100 : ℚ) : ErrVal)) := by
  refine ⟨fun x => ?_, ?_, fun x hx => ?_, fun t r hr => ?_⟩
  · unfold calc_percent_error
    by_cases hx : x = 0
    · simp [hx]
    · simp [hx]
  · simp [calc_percent_error]
  · simp [calc_percent_error, hx]
  · simp only [calc_percent_error, if_neg hr]
    rw [abs_div]

theorem calc_percent_error_spec_witness :
    calc_percent_error 3 0 = ⊤
    ∧ calc_percent_error 5 2 = ((abs (5 - 2) / abs 2 * 100 : ℚ) : ErrVal) :=
  ⟨calc_percent_error_spec.2.2.1 3 (by norm_num),
   calc_percent_error_spec.2.2.2 5 2 (by norm_num)⟩

/-- C5: `compare_logs` on an empty test series yields the FAILED record
with reason "No timesteps found in test file", `timesteps_test = 0` and
`timesteps_ref` the reference length; on a non-empty test series and an
empty reference series it yields the symmetric ERROR record; neither
carries `max_errors` or `avg_errors`. -/
theorem compare_logs_empty_series :
    (∀ ref_data : List LogStep,
      compare_logs [] ref_data =
        { status := Status.FAILED
          reason := some "No timesteps found in test file"
          timesteps_test := some 0
          timesteps_ref := some ref_data.length
          timesteps_compared := none
          max_errors := none
          avg_errors := none })
    ∧ (∀ test_data : List LogStep, test_data ≠ [] →
      compare_logs test_data [] =
        { status := Status.ERROR
          reason := some "No timesteps found in reference file"
          timesteps_test := some test_data.length
          timesteps_ref := some 0
          timesteps_compared := none
          max_errors := none
          avg_errors := none }) := by
  constructor
  · intro ref_data
    rfl
  · intro test_data ht
    unfold compare_logs
    rw [if_neg ht, if_pos rfl]

theorem compare_logs_empty_series_witness :
    compare_logs [⟨1, 2, 3, 4⟩] [] =
      { status := Status.ERROR
        reason := some "No timesteps found in reference file"
        timesteps_test := some 1
        timesteps_ref := some 0
        timesteps_compared := none
        max_errors := none
        avg_errors := none } :=
  compare_logs_empty_series.2 [⟨1, 2, 3, 4⟩] (by simp)

/-- C4: the aggregator exit code is 1 exactly when some result is FAILED,
ERROR or DIFFER, or when allow-missing mode is off and some result is
NO_LOG; when every result is MATCH or CLOSE the exit code is 0. -/
theorem summarize_results_exit_code (results : List ComparisonResult) (allow_missing : Bool) :
    (summarize_results results allow_missing = 1 ↔
      ((∃ r ∈ results,
          r.status = Status.FAILED ∨ r.status = Status.ERROR ∨ r.status = Status.DIFFER)
        ∨ (allow_missing = false ∧ ∃ r ∈ results, r.status = Status.NO_LOG)))
    ∧ ((∀ r ∈ results, r.status = Status.MATCH ∨ r.status = Status.CLOSE) →
      summarize_results results allow_missing = 0) := by
  have hfe : 0 < (results.countP fun r =>
      decide (r.status = Status.FAILED ∨ r.status = Status.ERROR)) ↔
      ∃ r ∈ results, r.status = Status.FAILED ∨ r.status = Status.ERROR := by
    rw [List.countP_pos_iff]
    simp only [decide_eq_true_eq]
  have hd : 0 < (results.countP fun r => decide (r.status = Status.DIFFER)) ↔
      ∃ r ∈ results, r.status = Status.DIFFER := by
    rw [List.countP_pos_iff]
    simp only [decide_eq_true_eq]
  have hn : 0 < (results.countP fun r => decide (r.status = Status.NO_LOG)) ↔
      ∃ r ∈ results, r.status = Status.NO_LOG := by
    rw [List.countP_pos_iff]
    simp only [decide_eq_true_eq]
  have hsplit : ((∃ r ∈ results, r.status = Status.FAILED ∨ r.status = Status.ERROR)
      ∨ (∃ r ∈ results, r.status = Status.DIFFER)) ↔
      (∃ r ∈ results,
        r.status = Status.FAILED ∨ r.status = Status.ERROR ∨ r.status = Status.DIFFER) := by
    constructor
    · rintro (⟨r, hr, h⟩ | ⟨r, hr, h⟩)
      · exact ⟨r, hr, h.imp_right Or.inl⟩
      · exact ⟨r, hr, Or.inr (Or.inr h)⟩
    · rintro ⟨r, hr, h | h | h⟩
      · exact Or.inl ⟨r, hr, Or.inl h⟩
      · exact Or.inl ⟨r, hr, Or.inr h⟩
      · exact Or.inr ⟨r, hr, h⟩
  constructor
  · unfold summarize_results
    cases allow_missing with
    | false =>
      simp only [Bool.false_eq_true, if_false]
      constructor
      · intro h1
        by_cases hc : 0 < (results.countP fun r =>
            decide (r.status = Status.FAILED ∨ r.status = Status.ERROR)) ∨
            0 < (results.countP fun r => decide (r.status = Status.DIFFER)) ∨
            0 < (results.countP fun r => decide (r.status = Status.NO_LOG))
        · rcases hc with h | h | h
          · exact Or.inl (hsplit.mp (Or.inl (hfe.mp h)))
          · exact Or.inl (hsplit.mp (Or.inr (hd.mp h)))
          · exact Or.inr ⟨by simp, hn.mp h⟩
        · rw [if_neg hc] at h1
          exact absurd h1 (by norm_num)
      · intro h
        rw [if_pos]
        rcases h with h | ⟨-, h⟩
        · rcases hsplit.mpr h with h' | h'
          · exact Or.inl (hfe.mpr h')
          · exact Or.inr (Or.inl (hd.mpr h'))
        · exact Or.inr (Or.inr (hn.mpr h))
    | true =>
      simp only [if_true]
      constructor
      · intro h1
        by_cases hc : 0 < (results.countP fun r =>
            decide (r.status = Status.FAILED ∨ r.status = Status.ERROR)) ∨
            0 < (results.countP fun r => decide (r.status = Status.DIFFER))
        · rcases hc with h | h
          · exact Or.inl (hsplit.mp (Or.inl (hfe.mp h)))
          · exact Or.inl (hsplit.mp (Or.inr (hd.mp h)))
        · rw [if_neg hc] at h1
          exact absurd h1 (by norm_num)
      · rintro (h | ⟨hfalse, -⟩)
        · rw [if_pos]
          rcases hsplit.mpr h with h' | h'
          · exact Or.inl (hfe.mpr h')
          · exact Or.inr (hd.mpr h')
        · exact absurd hfalse (by simp)
  · intro hall
    have h0 : ∀ (p : ComparisonResult → Bool),
        (∀ r ∈ results, p r = false) → results.countP p = 0 := by
      intro p hp
      rw [List.countP_eq_zero]
      intro a ha
      simp [hp a ha]
    unfold summarize_results
    have c1 : (results.countP fun r =>
        decide (r.status = Status.FAILED ∨ r.status = Status.ERROR)) = 0 := by
      refine h0 _ fun r hr => ?_
      rcases hall r hr with h | h <;> simp [h]
    have c2 : (results.countP fun r => decide (r.status = Status.DIFFER)) = 0 := by
      refine h0 _ fun r hr => ?_
      rcases hall r hr with h | h <;> simp [h]
    have c3 : (results.countP fun r => decide (r.status = Status.NO_LOG)) = 0 := by
      refine h0 _ fun r hr => ?_
      rcases hall r hr with h | h <;> simp [h]
    cases allow_missing <;> simp only [c1, c2, c3] <;> norm_num

/-- C1: on non-empty parsed series the classification uses the fixed
thresholds 1.0 and 5.0, evaluated in order with first match winning
(MATCH iff every field's max error is below 1; CLOSE iff not MATCH and
every field's max error is below 5; DIFFER otherwise); and the value of
the `--threshold` CLI option never changes what `main` computes, since
`main` passes no threshold to the comparison. -/
theorem compare_logs_fixed_thresholds (test_data ref_data : List LogStep)
    (ht : test_data ≠ []) (hr : ref_data ≠ []) :
    (((compare_logs test_data ref_data).status = Status.MATCH ↔
        (maxErrors test_data ref_data (min test_data.length ref_data.length)).allLt
          ((1 : ℚ) : ErrVal))
      ∧ ((compare_logs test_data ref_data).status = Status.CLOSE ↔
        (¬ (maxErrors test_data ref_data (min test_data.length ref_data.length)).allLt
            ((1 : ℚ) : ErrVal)
          ∧ (maxErrors test_data ref_data (min test_data.length ref_data.length)).allLt
            ((5 : ℚ) : ErrVal)))
      ∧ ((compare_logs test_data ref_data).status = Status.DIFFER ↔
        ¬ (maxErrors test_data ref_data (min test_data.length ref_data.length)).allLt
          ((5 : ℚ) : ErrVal)))
    ∧ (∀ (args : Args) (t : ℚ) (dirs : List LogDir) (reference : List String),
        main_run { args with threshold := t } dirs reference = main_run args dirs reference) := by
  have hone : ∀ m : ErrMap, m.allLt ((1 : ℚ) : ErrVal) → m.allLt ((5 : ℚ) : ErrVal) := by
    intro m h
    have h15 : ((1 : ℚ) : ErrVal) < ((5 : ℚ) : ErrVal) := by
      exact_mod_cast (by norm_num : (1 : ℚ) < 5)
    exact ⟨lt_trans h.1 h15, lt_trans h.2.1 h15, lt_trans h.2.2.1 h15, lt_trans h.2.2.2 h15⟩
  refine ⟨?_, fun args t dirs reference => rfl⟩
  rw [compare_logs_eq_of_ne ht hr]
  set m := maxErrors test_data ref_data (min test_data.length ref_data.length) with hm
  by_cases h1 : m.allLt ((1 : ℚ) : ErrVal)
  · rw [if_pos h1]
    exact ⟨iff_of_true rfl h1,
      iff_of_false (by simp) fun hc => hc.1 h1,
      iff_of_false (by simp) fun hn5 => hn5 (hone m h1)⟩
  · rw [if_neg h1]
    by_cases h5 : m.allLt ((5 : ℚ) : ErrVal)
    · rw [if_pos h5]
      exact ⟨iff_of_false (by simp) h1,
        iff_of_true rfl ⟨h1, h5⟩,
        iff_of_false (by simp) fun hn5 => hn5 h5⟩
    · rw [if_neg h5]
      exact ⟨iff_of_false (by simp) h1,
        iff_of_false (by simp) fun hc => h5 hc.2,
        iff_of_true rfl h5⟩

theorem compare_logs_fixed_thresholds_witness :
    (compare_logs [⟨1, 2, 3, 4⟩] [⟨1, 2, 3, 4⟩]).status = Status.MATCH :=
  ((compare_logs_fixed_thresholds [⟨1, 2, 3, 4⟩] [⟨1, 2, 3, 4⟩]
      (by simp) (by simp)).1.1).mpr
    (by
      constructor
      · show (maxErrors [⟨1, 2, 3, 4⟩] [⟨1, 2, 3, 4⟩] 1).w_min < _
        with_unfolding_all decide
      refine ⟨?_, ?_, ?_⟩ <;> with_unfolding_all decide)

/-- C6: on non-empty series of lengths m and n, `compare_logs` compares
exactly the positions below `N = min m n` (position by position), records
`timesteps_test = m`, `timesteps_ref = n`, `timesteps_compared = N`, and
produces per-field `max_errors` equal to the maximum per-index percent
error over those N positions (attained at one of them) and per-field
`avg_errors` equal to their sum divided by N. -/
theorem compare_logs_overlap_errors (test_data ref_data : List LogStep)
    (ht : test_data ≠ []) (hr : ref_data ≠ []) :
    (compare_logs test_data ref_data).timesteps_test = some test_data.length
    ∧ (compare_logs test_data ref_data).timesteps_ref = some ref_data.length
    ∧ (compare_logs test_data ref_data).timesteps_compared
        = some (min test_data.length ref_data.length)
    ∧ (∃ mE, (compare_logs test_data ref_data).max_errors = some mE ∧ ∀ k : DiagField,
        (∀ i < min test_data.length ref_data.length, errAt test_data ref_data i k ≤ mE.get k)
        ∧ (∃ i < min test_data.length ref_data.length, errAt test_data ref_data i k = mE.get k))
    ∧ (∃ aE, (compare_logs test_data ref_data).avg_errors = some aE ∧ ∀ k : DiagField,
        aE.get k = divErr (((List.range (min test_data.length ref_data.length)).map
            fun i => errAt test_data ref_data i k).sum)
          (min test_data.length ref_data.length)) := by
  have hN : 0 < min test_data.length ref_data.length :=
    lt_min (List.length_pos.mpr ht) (List.length_pos.mpr hr)
  rw [compare_logs_eq_of_ne ht hr]
  refine ⟨rfl, rfl, rfl, ?_, ?_⟩
  · refine ⟨_, rfl, fun k => ?_⟩
    rw [maxErrors, mkErrMap_get]
    constructor
    · intro i hi
      exact foldl_max_le_of_mem _ 0 _
        (List.mem_map.mpr ⟨i, List.mem_range.mpr hi, rfl⟩)
    · rcases foldl_max_mem
          ((List.range (min test_data.length ref_data.length)).map
            fun i => errAt test_data ref_data i k) 0 with h0 | hmem
      · refine ⟨0, hN, ?_⟩
        rw [h0]
        refine le_antisymm ?_ (errAt_nonneg _ _ _ _)
        have := foldl_max_le_of_mem
          ((List.range (min test_data.length ref_data.length)).map
            fun i => errAt test_data ref_data i k) 0 (errAt test_data ref_data 0 k)
          (List.mem_map.mpr ⟨0, List.mem_range.mpr hN, rfl⟩)
        rw [h0] at this
        exact this
      · rcases List.mem_map.mp hmem with ⟨i, hi, hie⟩
        exact ⟨i, List.mem_range.mp hi, hie⟩
  · refine ⟨_, rfl, fun k => ?_⟩
    rw [avgErrors, mkErrMap_get, sumErrors, mkErrMap_get, foldl_add_eq_sum, zero_add]

theorem compare_logs_overlap_errors_witness :
    (compare_logs [⟨1, 2, 3, 4⟩, ⟨5, 6, 7, 8⟩] [⟨1, 2, 3, 4⟩]).timesteps_compared = some 1 :=
  (compare_logs_overlap_errors [⟨1, 2, 3, 4⟩, ⟨5, 6, 7, 8⟩] [⟨1, 2, 3, 4⟩]
    (by simp) (by simp)).2.2.1

theorem summarize_results_exit_code_witness :
    summarize_results [{ status := Status.MATCH }, { status := Status.CLOSE }] true = 0 :=
  (summarize_results_exit_code [{ status := Status.MATCH }, { status := Status.CLOSE }] true).2
    (by
      intro r hr
      rcases List.mem_cons.mp hr with h | h
      · exact Or.inl (by rw [h])
      · rcases List.mem_cons.mp h with h' | h'
        · exact Or.inr (by rw [h'])
        · cases h')


theorem stepEvents_length : ∀ (es : List Ev) (st : Option (ℚ × ℚ)),
    (stepEvents st es).length = countPairs st.isSome es
  | [], st => by cases st <;> rfl
  | Ev.w a b :: es, st => by
    cases st <;> simp [stepEvents, countPairs, stepEvents_length es (some (a, b))]
  | Ev.u c d :: es, none => by
    simp [stepEvents, countPairs, stepEvents_length es none]
  | Ev.u c d :: es, some wv => by
    simp [stepEvents, countPairs, stepEvents_length es none]

theorem stepEvents_append_w : ∀ (es : List Ev) (st : Option (ℚ × ℚ)) (a b : ℚ),
    stepEvents st (es ++ [Ev.w a b]) = stepEvents st es
  | [], st, a, b => by cases st <;> rfl
  | Ev.w x y :: es, st, a, b => by
    simp only [List.cons_append, stepEvents]
    exact stepEvents_append_w es (some (x, y)) a b
  | Ev.u x y :: es, none, a, b => by
    simp only [List.cons_append, stepEvents]
    exact stepEvents_append_w es none a b
  | Ev.u x y :: es, some wv, a, b => by
    simp only [List.cons_append, stepEvents]
    exact congrArg _ (stepEvents_append_w es none a b)

/-- C3: `parse_log_file` runs the staging automaton `stepEvents` over the
document-ordered marker matches, and the automaton emits exactly one record
per w-then-u marker pair in document order: the record count equals the
pair count, a trailing `w` match is discarded, a `u` match with nothing
staged is dropped, and an emitted record takes `w_min, w_max` from the
(most recent) `w` match and `u_min, u_max` from the `u` match completing
it. -/
theorem parse_log_file_pairing :
    (∀ (lines : List String) (es : List Ev), logEvents lines = Except.ok es →
      parse_log_file lines = Except.ok (stepEvents none es))
    ∧ (∀ es : List Ev, (stepEvents none es).length = countPairs false es)
    ∧ (∀ (es : List Ev) (a b : ℚ), stepEvents none (es ++ [Ev.w a b]) = stepEvents none es)
    ∧ (∀ (es : List Ev) (a b : ℚ), stepEvents none (Ev.u a b :: es) = stepEvents none es)
    ∧ (∀ (a b c d : ℚ) (st : Option (ℚ × ℚ)) (es : List Ev),
        stepEvents st (Ev.w a b :: Ev.u c d :: es)
          = (⟨a, b, c, d⟩ : LogStep) :: stepEvents none es) := by
  refine ⟨fun lines es h => ?_, fun es => ?_, fun es a b => ?_, fun es a b => rfl,
    fun a b c d st es => by cases st <;> rfl⟩
  · unfold parse_log_file
    rw [h]
  · exact stepEvents_length es none
  · exact stepEvents_append_w es none a b

theorem parse_log_file_pairing_witness :
    parse_log_file ["global min, max w 1 2", "global min, max u 3 4"]
      = Except.ok (stepEvents none [Ev.w 1 2, Ev.u 3 4]) :=
  parse_log_file_pairing.1 _ _ (by with_unfolding_all rfl)

theorem noLogResult_inv (nm why : String) :
    hasErrMaps (noLogResult nm why) ↔ numericStatus (noLogResult nm why) := by
  apply iff_of_false
  · intro h
    exact absurd h.1 (by simp [noLogResult, hasErrMaps])
  · intro h
    rcases h with h | h | h <;> exact absurd h (by simp [noLogResult])

theorem hasErrMaps_tag (c : ComparisonResult) (nm : String) :
    hasErrMaps { c with name := some nm } ↔ hasErrMaps c := Iff.rfl

theorem numericStatus_tag (c : ComparisonResult) (nm : String) :
    numericStatus { c with name := some nm } ↔ numericStatus c := Iff.rfl

theorem hasErrMaps_compare_iff (test_data ref_data : List LogStep) :
    hasErrMaps (compare_logs test_data ref_data) ↔
      numericStatus (compare_logs test_data ref_data) := by
  by_cases ht : test_data = []
  · subst ht
    apply iff_of_false
    · intro h
      exact absurd h.1 (by simp [compare_logs, hasErrMaps])
    · intro h
      rcases h with h | h | h <;> exact absurd h (by simp [compare_logs])
  · by_cases hr : ref_data = []
    · subst hr
      apply iff_of_false
      · intro h
        refine absurd h.1 ?_
        unfold compare_logs
        rw [if_neg ht, if_pos rfl]
        simp [hasErrMaps]
      · intro h
        have hs : (compare_logs test_data []).status = Status.ERROR := by
          unfold compare_logs
          rw [if_neg ht, if_pos rfl]
        rcases h with h | h | h <;> rw [hs] at h <;> exact absurd h (by simp)
    · rw [compare_logs_eq_of_ne ht hr]
      apply iff_of_true
      · exact ⟨rfl, rfl⟩
      · unfold numericStatus
        dsimp only
        split
        · exact Or.inl rfl
        · split
          · exact Or.inr (Or.inl rfl)
          · exact Or.inr (Or.inr rfl)

theorem compare_logs_files_ok {f g : List String} {c : ComparisonResult}
    (h : compare_logs_files f g = Except.ok c) :
    ∃ t r, c = compare_logs t r := by
  unfold compare_logs_files at h
  cases hf : parse_log_file f with
  | error e => rw [hf] at h; cases h
  | ok t =>
    rw [hf] at h
    cases hg : parse_log_file g with
    | error e => rw [hg] at h; cases h
    | ok r =>
      rw [hg] at h
      injection h with h
      exact ⟨t, r, h.symm⟩

theorem expectedExtras_inv {found : List String} {exp : Option (List String)}
    {r : ComparisonResult} (h : r ∈ expectedExtras found exp) :
    hasErrMaps r ↔ numericStatus r := by
  unfold expectedExtras at h
  cases exp with
  | none => cases h
  | some exps =>
    rcases List.mem_map.mp h with ⟨e, -, he⟩
    rw [← he]
    exact noLogResult_inv _ _

theorem mem_sortResults {r : ComparisonResult} {l : List ComparisonResult} :
    r ∈ sortResults l ↔ r ∈ l :=
  (List.perm_insertionSort _ l).mem_iff

theorem reference_loop_inv :
    ∀ (ds : List LogDir) (reference : List String) (rs : List ComparisonResult)
      (r : ComparisonResult),
      reference_loop reference ds = Except.ok rs → r ∈ rs →
      (hasErrMaps r ↔ numericStatus r)
  | [], reference, rs, r => by
    intro h hm
    injection h with h
    rw [← h] at hm
    cases hm
  | d :: ds, reference, rs, r => by
    intro h hm
    unfold reference_loop at h
    rcases hhead : (match d.files with
       | [] => Except.ok (noLogResult d.name "No log file found")
       | f :: _ =>
         match compare_logs_files f reference with
         | Except.ok c => Except.ok { c with name := some d.name }
         | Except.error e => Except.error e) with _ | r0
    · rw [hhead] at h
      cases h
    · rw [hhead] at h
      rcases hrec : reference_loop reference ds with _ | rest
      · rw [hrec] at h
        cases h
      · rw [hrec] at h
        injection h with h
        rw [← h] at hm
        rcases List.mem_cons.mp hm with hm0 | hmr
        · subst hm0
          cases hf : d.files with
          | nil =>
            rw [hf] at hhead
            injection hhead with hhead
            rw [← hhead]
            exact noLogResult_inv _ _
          | cons f rest' =>
            rw [hf] at hhead
            dsimp only at hhead
            rcases hc : compare_logs_files f reference with _ | c
            · rw [hc] at hhead
              cases hhead
            · rw [hc] at hhead
              injection hhead with hhead
              rw [← hhead]
              rcases compare_logs_files_ok hc with ⟨t, rr, hcc⟩
              rw [hcc]
              exact (hasErrMaps_tag _ _).trans
                ((hasErrMaps_compare_iff t rr).trans (numericStatus_tag _ _).symm)
        · exact reference_loop_inv ds reference rest r hrec hmr

theorem decompResult_inv {single : String → Option LogDir} {e : ℕ × String × LogDir}
    {r : ComparisonResult} (h : decompResult single e = Except.ok r) :
    hasErrMaps r ↔ numericStatus r := by
  unfold decompResult at h
  rcases hs : single e.2.1 with _ | refDir
  · rw [hs] at h
    dsimp only at h
    injection h with h
    rw [← h]
    exact noLogResult_inv _ _
  · rw [hs] at h
    dsimp only at h
    rcases hrf : refDir.files with _ | ⟨rf, rfs⟩
    · rw [hrf] at h
      try dsimp only at h
      injection h with h
      rw [← h]
      exact noLogResult_inv _ _
    · rw [hrf] at h
      try dsimp only at h
      rcases htf : e.2.2.files with _ | ⟨tf, tfs⟩
      · rw [htf] at h
        try dsimp only at h
        injection h with h
        rw [← h]
        exact noLogResult_inv _ _
      · rw [htf] at h
        try dsimp only at h
        rcases hc : compare_logs_files tf rf with _ | c
        · rw [hc] at h
          cases h
        · rw [hc] at h
          injection h with h
          rw [← h]
          rcases compare_logs_files_ok hc with ⟨t, rr, hcc⟩
          rw [hcc]
          exact (hasErrMaps_tag _ _).trans
            ((hasErrMaps_compare_iff t rr).trans (numericStatus_tag _ _).symm)

theorem decomp_loop_inv :
    ∀ (es : List (ℕ × String × LogDir)) (single : String → Option LogDir)
      (rs : List ComparisonResult) (r : ComparisonResult),
      decomp_loop single es = Except.ok rs → r ∈ rs →
      (hasErrMaps r ↔ numericStatus r)
  | [], single, rs, r => by
    intro h hm
    injection h with h
    rw [← h] at hm
    cases hm
  | e :: es, single, rs, r => by
    intro h hm
    unfold decomp_loop at h
    rcases hhead : decompResult single e with _ | r0
    · rw [hhead] at h
      cases h
    · rw [hhead] at h
      rcases hrec : decomp_loop single es with _ | rest
      · rw [hrec] at h
        cases h
      · rw [hrec] at h
        injection h with h
        rw [← h] at hm
        rcases List.mem_cons.mp hm with hm0 | hmr
        · subst hm0
          exact decompResult_inv hhead
        · exact decomp_loop_inv es single rest r hrec hmr

/-- C9: a comparison result carries the `max_errors`/`avg_errors` maps if
and only if its status is MATCH, CLOSE or DIFFER — for the comparison
engine itself and for every result list either discovery protocol
returns. -/
theorem error_maps_present_iff :
    (∀ test_data ref_data : List LogStep,
      hasErrMaps (compare_logs test_data ref_data) ↔
        numericStatus (compare_logs test_data ref_data))
    ∧ (∀ (dirs : List LogDir) (reference : List String) (name_filter : Option String)
        (expected_configs : Option (List String)) (results : List ComparisonResult),
        run_reference_comparison dirs reference name_filter expected_configs
          = Except.ok results →
        ∀ r ∈ results, (hasErrMaps r ↔ numericStatus r))
    ∧ (∀ (dirs : List LogDir) (expected_configs : Option (List String))
        (results : List ComparisonResult),
        run_decomposition_test dirs expected_configs = Except.ok results →
        ∀ r ∈ results, (hasErrMaps r ↔ numericStatus r)) := by
  refine ⟨hasErrMaps_compare_iff, ?_, ?_⟩
  · intro dirs reference name_filter expected_configs results h r hm
    unfold run_reference_comparison at h
    rcases hp : parse_log_file reference with _ | rd
    · rw [hp] at h
      cases h
    · rw [hp] at h
      dsimp only at h
      rcases hl : reference_loop reference (get_log_dirs dirs name_filter) with _ | rs
      · rw [hl] at h
        cases h
      · rw [hl] at h
        injection h with h
        rw [← h] at hm
        rcases List.mem_append.mp (mem_sortResults.mp hm) with hm' | hm'
        · exact reference_loop_inv _ reference rs r hl hm'
        · exact expectedExtras_inv hm'
  · intro dirs expected_configs results h r hm
    unfold run_decomposition_test at h
    dsimp only at h
    rcases hl : decomp_loop (singleRank (get_log_dirs dirs none))
        (decompPairs (get_log_dirs dirs none)) with _ | rs
    · rw [hl] at h
      cases h
    · rw [hl] at h
      injection h with h
      rw [← h] at hm
      rcases List.mem_append.mp (mem_sortResults.mp hm) with hm' | hm'
      · exact decomp_loop_inv _ _ rs r hl hm'
      · exact expectedExtras_inv hm'

theorem error_maps_present_iff_witness :
    hasErrMaps (noLogResult "cfg" "No log file found") ↔
      numericStatus (noLogResult "cfg" "No log file found") :=
  error_maps_present_iff.2.1 [⟨"cfg", []⟩] [] none none
    [noLogResult "cfg" "No log file found"] (by with_unfolding_all rfl) _
    (List.mem_singleton.mpr rfl)

/-- C10: the two file revisions implement the same core functions —
`parse_log_file`, `calc_percent_error` and `compare_logs` of
`.github/workflows/validation/compare_logs.py` agree extensionally with
those of `.github/actions/validate-logs/compare_logs.py`, at series level
and at file level. -/
theorem file_revisions_equivalent :
    (∀ lines : List String, WF.parse_log_file lines = parse_log_file lines)
    ∧ (∀ test_val ref_val : ℚ,
        WF.calc_percent_error test_val ref_val = calc_percent_error test_val ref_val)
    ∧ (∀ test_data ref_data : List LogStep,
        WF.compare_logs test_data ref_data = compare_logs test_data ref_data)
    ∧ (∀ test_file ref_file : List String,
        WF.compare_logs_files test_file ref_file = compare_logs_files test_file ref_file) := by
  have hle : ∀ lines, WF.logEvents lines = logEvents lines := by
    intro lines
    induction lines with
    | nil => rfl
    | cons l ls ih =>
      show (match WF.lineEvents l, WF.logEvents ls with
        | Except.ok es, Except.ok rest => Except.ok (es ++ rest)
        | Except.error e, _ => Except.error e
        | _, Except.error e => Except.error e) = _
      rw [ih]
      rfl
  have hstep : ∀ st es, WF.stepEvents st es = stepEvents st es := by
    intro st es
    induction es generalizing st with
    | nil => cases st <;> rfl
    | cons e es ih =>
      cases e with
      | w a b => cases st <;> exact ih (some (a, b))
      | u c d =>
        cases st with
        | none => exact ih none
        | some wv => exact congrArg _ (ih none)
  have hparse : ∀ lines, WF.parse_log_file lines = parse_log_file lines := by
    intro lines
    unfold WF.parse_log_file parse_log_file
    rw [hle]
    cases logEvents lines with
    | ok es => exact congrArg _ (hstep none es)
    | error e => rfl
  have hcalc : ∀ t r : ℚ, WF.calc_percent_error t r = calc_percent_error t r :=
    fun t r => rfl
  have hcmp : ∀ t r : List LogStep, WF.compare_logs t r = compare_logs t r :=
    fun t r => rfl
  refine ⟨hparse, hcalc, hcmp, fun tf rf => ?_⟩
  unfold WF.compare_logs_files compare_logs_files
  rw [hparse]
  cases parse_log_file tf with
  | error e => rfl
  | ok t =>
    rw [hparse]
    cases parse_log_file rf with
    | error e => rfl
    | ok r => rfl

/-- C7 counterexample: the claim that a malformed log is always absorbed
into a terminal per-pairing classification is false.  The directory
`cfg-a` holds a log whose line `global min, max w - -` matches `pattern_w`
(the token class `[-\d.E+]` accepts a bare `-`), and `float('-')` raises
`ValueError`; nothing catches it, so the whole evaluation aborts with the
exception and the remaining configuration `cfg-b` is never evaluated —
no result list is produced at all. -/
theorem run_reference_comparison_abort_counterexample :
    run_reference_comparison
      [⟨"cfg-a", [["global min, max w - -"]]⟩, ⟨"cfg-b", [[]]⟩] [] none none
      = Except.error () := by
  with_unfolding_all rfl

theorem reference_loop_ok :
    ∀ (ds : List LogDir) (reference : List String) (rd : List LogStep),
      parse_log_file reference = Except.ok rd →
      (∀ d ∈ ds, ∀ f, d.files.head? = some f → ∃ td, parse_log_file f = Except.ok td) →
      ∃ rs, reference_loop reference ds = Except.ok rs
        ∧ rs.map ComparisonResult.name = ds.map fun d => some d.name
  | [], _, _, _, _ => ⟨[], rfl, rfl⟩
  | d :: ds, reference, rd, href, hd => by
    obtain ⟨rs, hrs, hnames⟩ := reference_loop_ok ds reference rd href
      fun d' hd' => hd d' (List.mem_cons_of_mem d hd')
    cases hf : d.files with
    | nil =>
      refine ⟨noLogResult d.name "No log file found" :: rs, ?_, ?_⟩
      · unfold reference_loop
        rw [hf]
        dsimp only
        rw [hrs]
      · simp only [List.map_cons, hnames, noLogResult]
    | cons f fs =>
      obtain ⟨td, htd⟩ := hd d (List.mem_cons_self d ds) f (by rw [hf]; rfl)
      have hcf : compare_logs_files f reference = Except.ok (compare_logs td rd) := by
        unfold compare_logs_files
        rw [htd, href]
      refine ⟨{ compare_logs td rd with name := some d.name } :: rs, ?_, ?_⟩
      · unfold reference_loop
        rw [hf]
        dsimp only
        rw [hcf]
        dsimp only
        rw [hrs]
      · simp only [List.map_cons, hnames]

/-- C7 amended: when every log involved parses cleanly (the reference file
and the first log file of every scanned configuration yield a series
without raising), the reference comparison aborts nothing: it returns a
result list containing an entry for every scanned configuration; but a log
whose marker-matched token fails float conversion raises an exception that
aborts the entire evaluation, including all remaining configurations (see
the counterexample). -/
theorem run_reference_comparison_no_abort_when_parseable
    (dirs : List LogDir) (reference : List String) (name_filter : Option String)
    (expected_configs : Option (List String))
    (href : ∃ rd, parse_log_file reference = Except.ok rd)
    (hdirs : ∀ d ∈ get_log_dirs dirs name_filter, ∀ f, d.files.head? = some f →
      ∃ td, parse_log_file f = Except.ok td) :
    ∃ results, run_reference_comparison dirs reference name_filter expected_configs
        = Except.ok results
      ∧ ∀ d ∈ get_log_dirs dirs name_filter, ∃ r ∈ results, r.name = some d.name := by
  obtain ⟨rd, hrd⟩ := href
  obtain ⟨rs, hrs, hnames⟩ := reference_loop_ok (get_log_dirs dirs name_filter) reference rd
    hrd hdirs
  refine ⟨sortResults (rs ++ expectedExtras
      ((get_log_dirs dirs name_filter).map LogDir.name) expected_configs), ?_, ?_⟩
  · unfold run_reference_comparison
    rw [hrd]
    dsimp only
    rw [hrs]
  · intro d hdm
    have : some d.name ∈ (get_log_dirs dirs name_filter).map fun d => some d.name :=
      List.mem_map.mpr ⟨d, hdm, rfl⟩
    rw [← hnames] at this
    rcases List.mem_map.mp this with ⟨r, hr, hrn⟩
    exact ⟨r, mem_sortResults.mpr (List.mem_append_left _ hr), hrn⟩

theorem run_reference_comparison_no_abort_witness :
    ∃ results, run_reference_comparison [⟨"cfg", [[]]⟩] [] none none = Except.ok results
      ∧ ∀ d ∈ get_log_dirs [⟨"cfg", [[]]⟩] none, ∃ r ∈ results, r.name = some d.name :=
  run_reference_comparison_no_abort_when_parseable [⟨"cfg", [[]]⟩] [] none none
    ⟨[], rfl⟩
    (by
      intro d hd f hf
      have hscan : get_log_dirs [⟨"cfg", [[]]⟩] none = [⟨"cfg", [[]]⟩] := by
        with_unfolding_all rfl
      rw [hscan] at hd
      rcases List.mem_singleton.mp hd with rfl
      have hfe : f = [] := by
        injection hf with hf
        exact hf.symm
      exact ⟨[], by rw [hfe]; rfl⟩)

theorem sorted_eq_of_perm_nodup :
    ∀ (l₁ l₂ : List LogDir), l₁.Perm l₂ → l₁.Sorted nameLe → l₂.Sorted nameLe →
      (l₁.map LogDir.name).Nodup → l₁ = l₂
  | [], _, hp, _, _, _ => hp.nil_eq
  | a :: t₁, l₂, hp, hs₁, hs₂, hnd => by
    cases l₂ with
    | nil => exact absurd hp.symm.nil_eq (by simp)
    | cons b t₂ =>
      have hab : a = b := by
        have haIn : a ∈ b :: t₂ := hp.mem_iff.mp (List.mem_cons_self a t₁)
        have hbIn : b ∈ a :: t₁ := hp.symm.mem_iff.mp (List.mem_cons_self b t₂)
        rcases List.mem_cons.mp haIn with h | hat2
        · exact h
        · rcases List.mem_cons.mp hbIn with h | hbt1
          · exact h.symm
          · have h1 : nameLe a b := (List.sorted_cons.mp hs₁).1 b hbt1
            have h2 : nameLe b a := (List.sorted_cons.mp hs₂).1 a hat2
            have hname : a.name = b.name := le_antisymm h1 h2
            exfalso
            have hmem : a.name ∈ t₁.map LogDir.name := by
              rw [hname]
              exact List.mem_map.mpr ⟨b, hbt1, rfl⟩
            simp only [List.map_cons, List.nodup_cons] at hnd
            exact hnd.1 hmem
      subst hab
      have ht := sorted_eq_of_perm_nodup t₁ t₂ hp.cons_inv
        (List.sorted_cons.mp hs₁).2 (List.sorted_cons.mp hs₂).2
        (by
          simp only [List.map_cons, List.nodup_cons] at hnd
          exact hnd.2)
      rw [ht]

theorem get_log_dirs_perm (dirs₁ dirs₂ : List LogDir) (nf : Option String)
    (hp : dirs₁.Perm dirs₂) (hnd : (dirs₁.map LogDir.name).Nodup) :
    get_log_dirs dirs₁ nf = get_log_dirs dirs₂ nf := by
  unfold get_log_dirs
  apply sorted_eq_of_perm_nodup
  · exact (List.perm_insertionSort _ _).trans
      ((hp.filter _).trans (List.perm_insertionSort _ _).symm)
  · exact List.sorted_insertionSort nameLe _
  · exact List.sorted_insertionSort nameLe _
  · have h1 : ((dirs₁.filter fun d =>
        match nf with
        | none => true
        | some f => if f = "" then true else strContains d.name f).map LogDir.name).Nodup :=
      List.Nodup.sublist ((List.filter_sublist dirs₁).map LogDir.name) hnd
    exact ((List.perm_insertionSort nameLe _).map LogDir.name).nodup_iff.mpr h1

theorem parseRank_one (k : String) (hk : k ≠ "") :
    parseRank ("logs-1proc-" ++ k) = some (1, k) := by
  rcases k with ⟨l⟩
  cases l with
  | nil => exact absurd rfl hk
  | cons c cs => with_unfolding_all rfl

theorem eq_singleton_of_nodup {α : Type} (l : List α) (a : α) (hnd : l.Nodup)
    (ha : a ∈ l) (hall : ∀ x ∈ l, x = a) : l = [a] := by
  cases l with
  | nil => cases ha
  | cons x t =>
    have hx : x = a := hall x (List.mem_cons_self x t)
    subst hx
    cases t with
    | nil => rfl
    | cons y t' =>
      exfalso
      have hy : y = x := hall y (List.mem_cons_of_mem x (List.mem_cons_self y t'))
      rw [List.nodup_cons] at hnd
      exact hnd.1 (hy ▸ List.mem_cons_self y t')

theorem singleRank_eq (dirs : List LogDir) (k : String) (d1 : LogDir)
    (hnd : (dirs.map LogDir.name).Nodup) (hd1 : d1 ∈ dirs)
    (hpr1 : parseRank d1.name = some (1, k))
    (huniq : ∀ d' ∈ dirs, parseRank d'.name = some (1, k) → d' = d1) :
    singleRank (get_log_dirs dirs none) k = some d1 := by
  have hmemIff : ∀ x : LogDir, x ∈ get_log_dirs dirs none ↔ x ∈ dirs := by
    intro x
    unfold get_log_dirs
    rw [(List.perm_insertionSort nameLe _).mem_iff, List.mem_filter]
    simp
  have hfilter : (get_log_dirs dirs none).filter
      (fun d => decide (parseRank d.name = some (1, k))) = [d1] := by
    apply eq_singleton_of_nodup
    · refine List.Nodup.filter _ ?_
      have hdirs_nd : dirs.Nodup := List.Nodup.of_map LogDir.name hnd
      unfold get_log_dirs
      exact (List.perm_insertionSort nameLe _).nodup_iff.mpr
        (List.Nodup.filter _ hdirs_nd)
    · rw [List.mem_filter]
      exact ⟨(hmemIff d1).mpr hd1, decide_eq_true hpr1⟩
    · intro x hx
      rw [List.mem_filter] at hx
      exact huniq x ((hmemIff x).mp hx.1) (of_decide_eq_true hx.2)
  unfold singleRank
  rw [hfilter]
  rfl

/-- C8: decomposition pairing depends only on config-key matching, not on
directory enumeration order.  (1) Permuting the input directories (with
distinct names, as on a filesystem) leaves the final name-sorted result
list unchanged.  (2) Every directory `logs-<N>proc-<key>` with `N != 1` is
entered into the pairing list, and the lookup for its reference resolves to
the directory named `logs-1proc-<key>` whenever that directory exists (as
the unique directory whose name parses to rank 1 with that key).  (3) The
result produced for such an entry is named `"<N>proc vs 1proc: <key>"`,
and (4) it is the comparison of the multi-rank directory's log (as test)
against the single-rank directory's log (as reference). -/
theorem run_decomposition_pairing_order_independent :
    (∀ (dirs₁ dirs₂ : List LogDir) (expected_configs : Option (List String)),
      dirs₁.Perm dirs₂ → (dirs₁.map LogDir.name).Nodup →
      run_decomposition_test dirs₁ expected_configs
        = run_decomposition_test dirs₂ expected_configs)
    ∧ (∀ (dirs : List LogDir) (d d1 : LogDir) (n : ℕ) (k : String),
      (dirs.map LogDir.name).Nodup →
      d ∈ dirs → parseRank d.name = some (n, k) → n ≠ 1 →
      d1 ∈ dirs → d1.name = "logs-1proc-" ++ k → k ≠ "" →
      (∀ d' ∈ dirs, parseRank d'.name = some (1, k) → d' = d1) →
      ((n, k, d) ∈ decompPairs (get_log_dirs dirs none)
        ∧ singleRank (get_log_dirs dirs none) k = some d1))
    ∧ (∀ (single : String → Option LogDir) (e : ℕ × String × LogDir)
        (r : ComparisonResult),
      decompResult single e = Except.ok r → r.name = some (decompName e.1 e.2.1))
    ∧ (∀ (single : String → Option LogDir) (n : ℕ) (k : String) (d d1 : LogDir)
        (rf tf : List String) (c : ComparisonResult),
      single k = some d1 → d1.files.head? = some rf → d.files.head? = some tf →
      compare_logs_files tf rf = Except.ok c →
      decompResult single (n, k, d)
        = Except.ok { c with name := some (decompName n k) }) := by
  refine ⟨?_, ?_, ?_, ?_⟩
  · intro dirs₁ dirs₂ expected_configs hp hnd
    unfold run_decomposition_test
    rw [get_log_dirs_perm dirs₁ dirs₂ none hp hnd]
  · intro dirs d d1 n k hnd hd hpr hn hd1 hd1name hk huniq
    constructor
    · unfold decompPairs
      rw [(List.perm_insertionSort multiLe _).mem_iff, List.mem_filterMap]
      refine ⟨d, ?_, ?_⟩
      · unfold get_log_dirs
        rw [(List.perm_insertionSort nameLe _).mem_iff, List.mem_filter]
        simp [hd]
      · rw [hpr]
        dsimp only
        rw [if_neg hn]
    · exact singleRank_eq dirs k d1 hnd hd1
        (by rw [hd1name]; exact parseRank_one k hk) huniq
  · intro single e r h
    unfold decompResult at h
    rcases hs : single e.2.1 with _ | refDir
    · rw [hs] at h
      dsimp only at h
      injection h with h
      rw [← h]
      rfl
    · rw [hs] at h
      dsimp only at h
      rcases hrf : refDir.files with _ | ⟨rf, rfs⟩
      · rw [hrf] at h
        try dsimp only at h
        injection h with h
        rw [← h]
        rfl
      · rw [hrf] at h
        try dsimp only at h
        rcases htf : e.2.2.files with _ | ⟨tf, tfs⟩
        · rw [htf] at h
          try dsimp only at h
          injection h with h
          rw [← h]
          rfl
        · rw [htf] at h
          try dsimp only at h
          rcases hc : compare_logs_files tf rf with _ | c
          · rw [hc] at h
            cases h
          · rw [hc] at h
            injection h with h
            rw [← h]
  · intro single n k d d1 rf tf c hs hrf htf hc
    unfold decompResult
    rw [hs]
    dsimp only
    rcases hrfs : d1.files with _ | ⟨rf', rfs⟩
    · rw [hrfs] at hrf
      cases hrf
    · rw [hrfs] at hrf
      injection hrf with hrf
      subst hrf
      rcases htfs : d.files with _ | ⟨tf', tfs⟩
      · rw [htfs] at htf
        cases htf
      · rw [htfs] at htf
        injection htf with htf
        subst htf
        dsimp only
        rw [hc]

theorem run_decomposition_pairing_witness :
    run_decomposition_test [⟨"logs-4proc-a", [[]]⟩, ⟨"logs-1proc-a", [[]]⟩] none
      = run_decomposition_test [⟨"logs-1proc-a", [[]]⟩, ⟨"logs-4proc-a", [[]]⟩] none :=
  run_decomposition_pairing_order_independent.1
    [⟨"logs-4proc-a", [[]]⟩, ⟨"logs-1proc-a", [[]]⟩]
    [⟨"logs-1proc-a", [[]]⟩, ⟨"logs-4proc-a", [[]]⟩] none
    (by with_unfolding_all decide) (by with_unfolding_all decide)
